import Mathlib

set_option maxRecDepth 40000

/-!
Shallow embedding of the HLS downloader in src/main.go (package main of
kjfcpua/twitter-space-download).  Strings are modelled as lists of
characters; the Go standard-library string operations used by the code
(strings.TrimSpace, HasPrefix, HasSuffix, Contains, LastIndex, Replace,
filepath.Base, bufio line scanning) are re-implemented faithfully below.
HTTP is modelled as an oracle from URL to either an error message or a
response body; mutation of the `HLSDownloader` receiver is modelled by
explicit state passing of a `DlSt` record; unbounded loops and the
recursive `getPlaylist` call take a fuel argument.
-/

namespace TSD

/-- Go strings, modelled as lists of characters (the code only handles ASCII
manifest data, so byte indices and rune indices coincide). -/
abbrev Str := List Char

/-- ASCII part of Go unicode.IsSpace, as used by strings.TrimSpace. -/
def isSpaceGo (c : Char) : Bool :=
  c = ' ' || c = '\t' || c = '\n' || c = '\x0b' || c = '\x0c' || c = '\r'

/-- Go strings.TrimSpace. -/
def trimSpace (s : Str) : Str :=
  ((s.dropWhile isSpaceGo).reverse.dropWhile isSpaceGo).reverse

/-- Go strings.HasPrefix s pre. -/
def hasPrefixL (s pre : Str) : Bool := pre.isPrefixOf s

/-- Go strings.HasSuffix s suf. -/
def hasSuffixL (s suf : Str) : Bool := suf.isSuffixOf s

/-- Go strings.Contains s sub. -/
def containsL (s sub : Str) : Bool :=
  if sub.isPrefixOf s then true
  else
    match s with
    | [] => false
    | _ :: t => containsL t sub

/-- Go strings.LastIndex s (string of the single character c): the index of
the last occurrence, or -1 when absent. -/
def lastIndexOfChar (s : Str) (c : Char) : Int :=
  match s with
  | [] => -1
  | a :: t =>
    let r := lastIndexOfChar t c
    if r ≥ 0 then r + 1
    else if a = c then 0 else -1

/-- Go slice expression s[:i].  Go panics when i is out of range (in
particular when i = -1, the result of a failed LastIndex); the panic is
modelled as `none`. -/
def goSliceTo (s : Str) (i : Int) : Option Str :=
  if 0 ≤ i ∧ i ≤ (s.length : Int) then some (s.take i.toNat) else none

/-- Go strings.Replace s old new 1: replace the first occurrence of old. -/
def replaceFirstL (old new : Str) : Str → Str
  | [] => if old.isPrefixOf ([] : Str) then new else []
  | c :: t =>
    if old.isPrefixOf (c :: t) then new ++ (c :: t).drop old.length
    else c :: replaceFirstL old new t

/-- Go path/filepath.Base on a slash-separated path (linux separator). -/
def basenameL (p : Str) : Str :=
  if p = [] then ['.']
  else
    let q := (p.reverse.dropWhile (fun c => c = '/')).reverse
    if q = [] then ['/']
    else (q.reverse.takeWhile (fun c => ¬ (c = '/'))).reverse

/-- bufio.Scanner line splitting (split on the newline character; a final
line without a trailing newline is still produced, and a trailing newline
yields a final empty token which every consumer below ignores). -/
def splitLines : Str → List Str
  | [] => [[]]
  | c :: t =>
    if c = '\n' then [] :: splitLines t
    else
      match splitLines t with
      | [] => [[c]]
      | l :: ls => (c :: l) :: ls

/-! String constants appearing in src/main.go. -/

/-- The segment-announcement marker checked at main.go:269. -/
def extinfMarker : Str := "#EXTINF:".data

/-- The end-of-list marker checked at main.go:279. -/
def endlistMarker : Str := "#EXT-X-ENDLIST".data

/-- The comment prefix checked at main.go:274. -/
def hashMark : Str := "#".data

/-- The absolute-URL test string of main.go:286 and main.go:303. -/
def httpMarker : Str := "http".data

/-- The nested-manifest suffix of main.go:301. -/
def m3u8Suffix : Str := ".m3u8".data

/-- The master-playlist exclusion substring of main.go:301. -/
def masterMarker : Str := "master_playlist".data

/-- The error message produced at main.go:310. -/
def noSegMsg : Str := "No audio segments or valid playlist found".data

/-- The substring the driver looks for at main.go:179. -/
def noSegCheckPattern : Str := "No audio segments found".data

/-- Substring replaced by switchToReplay, main.go:318. -/
def liveMarker : Str := "type=live".data

/-- Replacement inserted by switchToReplay, main.go:318. -/
def replayMarker : Str := "type=replay".data

/-- Dynamic-playlist file name, main.go:319. -/
def dynPlaylist : Str := "dynamic_playlist.m3u8".data

/-- Master-playlist file name, main.go:320. -/
def masterPlaylist : Str := "master_playlist.m3u8".data

/-- Wrapping applied by the fatal return of main.go:188. -/
def fatalWrapPrefix : Str := "Failed to get playlist, exceeded max retries: ".data

/-- MAX_RETRIES, main.go:66. -/
def MAX_RETRIES : Nat := 10

/-! The line scanner of getPlaylist (main.go:258-282). -/

/-- Scanner state of the loop at main.go:262-282: the isChunk flag, the
accumulated chunk list, and the d.isCompleted field. -/
structure ScanSt where
  isChunk : Bool
  chunks : List Str
  completed : Bool
deriving DecidableEq, Repr

/-- One iteration of the scanning loop (main.go:262-282). -/
def scanLine (st : ScanSt) (raw : Str) : ScanSt :=
  let line := trimSpace raw
  if line = [] then st
  else if hasPrefixL line extinfMarker then { st with isChunk := true }
  else
    let st1 :=
      if st.isChunk && !(hasPrefixL line hashMark) then
        { st with chunks := st.chunks ++ [line], isChunk := false }
      else st
    if containsL line endlistMarker then { st1 with completed := true } else st1

/-- The whole scan of a response body, starting from the current value of
d.isCompleted (which the scan only ever sets to true). -/
def scanContent (content : Str) (completed0 : Bool) : ScanSt :=
  (splitLines content).foldl scanLine { isChunk := false, chunks := [], completed := completed0 }

/-- The absolute-URL rewrite block at main.go:284-295: when the first chunk
starts with http and has a slash, d.baseURL becomes its directory portion
and every chunk is replaced by filepath.Base of itself.  Returns the (new
base URL, new chunk list) pair. -/
def rewriteChunks (baseURL : Str) (chunks : List Str) : Str × List Str :=
  match chunks with
  | [] => (baseURL, [])
  | first :: _ =>
    if hasPrefixL first httpMarker then
      let idx := lastIndexOfChar first '/'
      if idx ≠ -1 then (first.take idx.toNat, chunks.map basenameL)
      else (baseURL, chunks)
    else (baseURL, chunks)

/-- The nested-manifest re-scan at main.go:297-309: the first trimmed line
ending in .m3u8 and not containing master_playlist. -/
def findNested : List Str → Option Str
  | [] => none
  | raw :: rest =>
    let line := trimSpace raw
    if hasSuffixL line m3u8Suffix && !(containsL line masterMarker) then some line
    else findNested rest

/-- The mutable fields of HLSDownloader touched by the polling core
(main.go:107-116): baseURL, isCompleted and the seenChunks dedup map
(modelled as the list of marked references). -/
structure DlSt where
  baseURL : Str
  isCompleted : Bool
  seenChunks : List Str
deriving DecidableEq, Repr

/-- The error classes getPlaylist can fail with: transient
(network/HTTP-status) errors carrying their message, the no-segments error
of main.go:310, and fuel exhaustion of the embedding (the Go recursion at
main.go:307 is unbounded). -/
inductive GErr where
  | transient (msg : Str)
  | noSegments
  | outOfFuel
deriving DecidableEq, Repr

/-- err.Error() for the errors of `GErr`, as matched by main.go:179. -/
def gerrMsg : GErr → Str
  | GErr.transient m => m
  | GErr.noSegments => noSegMsg
  | GErr.outOfFuel => []

/-- getPlaylist (main.go:233-315).  `fetch` is the HTTP layer: it maps a URL
to either a transport/HTTP-status error message or a 200 response body.
State passing mirrors the in-place mutation of d.isCompleted (main.go:280)
and d.baseURL (main.go:289). -/
def getPlaylistF (fetch : Str → Except Str Str) :
    Nat → DlSt → Str → Except GErr (List Str) × DlSt
  | 0, st, _ => (Except.error GErr.outOfFuel, st)
  | fuel + 1, st, url =>
    match fetch url with
    | Except.error m => (Except.error (GErr.transient m), st)
    | Except.ok content =>
      let sc := scanContent content st.isCompleted
      let bc := rewriteChunks st.baseURL sc.chunks
      let st1 : DlSt := { st with isCompleted := sc.completed, baseURL := bc.1 }
      if bc.2 = [] then
        match findNested (splitLines content) with
        | some line =>
          getPlaylistF fetch fuel st1
            (if hasPrefixL line httpMarker then line else st1.baseURL ++ '/' :: line)
        | none => (Except.error GErr.noSegments, st1)
      else (Except.ok bc.2, st1)

/-! processChunks (main.go:211-231). -/

/-- Outcome of one downloadChunk call (main.go:330-355), as classified by
processChunks: success, an error whose message contains the text matched at
main.go:220 (the sink was closed), or any other error. -/
inductive DlRes where
  | okDl
  | closedErr
  | otherErr
deriving DecidableEq, Repr

/-- The URL built at main.go:218. -/
def chunkURLOf (base chunk : Str) : Str := base ++ '/' :: chunk

/-- processChunks (main.go:211-231).  `dlr` is the segment-acquisition
oracle; `stop` tells whether the stop channel is closed (the per-chunk
select at main.go:213-215).  Returns the new seenChunks ledger and, second,
the list of chunk references that were actually passed to downloadChunk,
in order. -/
def processChunksF (dlr : Str → DlRes) (stop : Bool) (base : Str) :
    List Str → List Str → List Str × List Str
  | seen, [] => (seen, [])
  | seen, c :: rest =>
    if stop then (seen, [])
    else if c ∈ seen then processChunksF dlr stop base seen rest
    else
      match dlr (chunkURLOf base c) with
      | DlRes.closedErr => (seen, [c])
      | DlRes.otherErr =>
        let r := processChunksF dlr stop base seen rest
        (r.1, c :: r.2)
      | DlRes.okDl =>
        let r := processChunksF dlr stop base (seen ++ [c]) rest
        (r.1, c :: r.2)

/-- Several successive polls: processChunks applied to each manifest's chunk
list in turn, threading the ledger, collecting every reference handed to
the acquirer. -/
def processManyF (dlr : Str → DlRes) (stop : Bool) (base : Str) :
    List Str → List (List Str) → List Str × List Str
  | seen, [] => (seen, [])
  | seen, m :: ms =>
    let r1 := processChunksF dlr stop base seen m
    let r2 := processManyF dlr stop base r1.1 ms
    (r2.1, r1.2 ++ r2.2)

/-! switchToReplay (main.go:317-328) and the Start loop (main.go:163-209). -/

/-- The URL rewrite of switchToReplay (main.go:318-321). -/
def switchToReplayF (url : Str) : Str :=
  let r := replaceFirstL liveMarker replayMarker url
  if containsL r dynPlaylist then replaceFirstL dynPlaylist masterPlaylist r
  else r

/-- The base-URL slice of Start (main.go:164); `none` models the Go panic
when the URL has no slash (LastIndex = -1). -/
def startBaseF (playlistURL : Str) : Option Str :=
  goSliceTo playlistURL (lastIndexOfChar playlistURL '/')

/-- The base-URL slice of switchToReplay (main.go:326) applied to the
rewritten URL; `none` models the Go panic when it has no slash. -/
def switchBaseF (url : Str) : Option Str :=
  goSliceTo (switchToReplayF url) (lastIndexOfChar (switchToReplayF url) '/')

/-- Observable events of one Start run: a getPlaylist call, the
RETRY_INTERVAL sleep of main.go:191, the CHUNK_INTERVAL sleep of
main.go:202, the replay switch of main.go:180, and each reference passed to
downloadChunk. -/
inductive Ev where
  | fetchEv
  | retrySleepEv
  | chunkSleepEv
  | modeSwitchEv
  | acquireEv (ref : Str)
deriving DecidableEq, Repr

/-- How a Start run ends: the stop-channel return of main.go:175, the
completed return of main.go:208, the fatal error return of main.go:188
(carrying its message), the out-of-range slice panic of main.go:326, or
exhaustion of the model's fuel (the loop would have kept polling). -/
inductive StartOutcome where
  | stoppedOut
  | completedOut
  | fatalOut (msg : Str)
  | panicOut
  | fuelOut
deriving DecidableEq, Repr

/-- The message built by fmt.Errorf at main.go:188. -/
def wrapFatal (m : Str) : Str := fatalWrapPrefix ++ m

/-- The polling loop of Start (main.go:171-205), one fuel unit per
iteration.  Arguments after the oracles: fuel, downloader state, current
playlist URL, retryCount, hasTriedReplay. -/
def startLoopF (fetch : Str → Except Str Str) (dlr : Str → DlRes) (stop : Bool) :
    Nat → DlSt → Str → Nat → Bool → StartOutcome × List Ev
  | 0, _, _, _, _ => (StartOutcome.fuelOut, [])
  | fuel + 1, dl, url, retryCount, hasTriedReplay =>
    if dl.isCompleted then (StartOutcome.completedOut, [])
    else if stop then (StartOutcome.stoppedOut, [])
    else
      let r := getPlaylistF fetch (fuel + 1) dl url
      match r.1 with
      | Except.error e =>
        if containsL (gerrMsg e) noSegCheckPattern && !hasTriedReplay then
          let newURL := switchToReplayF url
          match goSliceTo newURL (lastIndexOfChar newURL '/') with
          | none => (StartOutcome.panicOut, [Ev.fetchEv])
          | some nb =>
            let rec1 := startLoopF fetch dlr stop fuel { r.2 with baseURL := nb } newURL 0 true
            (rec1.1, Ev.fetchEv :: Ev.modeSwitchEv :: rec1.2)
        else
          let rc := retryCount + 1
          if rc > MAX_RETRIES then (StartOutcome.fatalOut (wrapFatal (gerrMsg e)), [Ev.fetchEv])
          else
            let rec1 := startLoopF fetch dlr stop fuel r.2 url rc hasTriedReplay
            (rec1.1, Ev.fetchEv :: Ev.retrySleepEv :: rec1.2)
      | Except.ok chunks =>
        let pc := processChunksF dlr stop r.2.baseURL r.2.seenChunks chunks
        let dl2 : DlSt := { r.2 with seenChunks := pc.1 }
        if dl2.isCompleted then
          let rec1 := startLoopF fetch dlr stop fuel dl2 url 0 hasTriedReplay
          (rec1.1, Ev.fetchEv :: (pc.2.map Ev.acquireEv ++ rec1.2))
        else
          let rec1 := startLoopF fetch dlr stop fuel dl2 url 0 hasTriedReplay
          (rec1.1, Ev.fetchEv :: (pc.2.map Ev.acquireEv ++ Ev.chunkSleepEv :: rec1.2))

/-- Start (main.go:163-209): compute the base URL by the slice of
main.go:164 (panic when the URL has no slash), then run the polling loop. -/
def startF (fetch : Str → Except Str Str) (dlr : Str → DlRes) (stop : Bool)
    (fuel : Nat) (playlistURL : Str) (dl0 : DlSt) : StartOutcome × List Ev :=
  match startBaseF playlistURL with
  | none => (StartOutcome.panicOut, [])
  | some b => startLoopF fetch dlr stop fuel { dl0 with baseURL := b } playlistURL 0 false

/-! Close (main.go:357-368). -/

/-- The state Close touches: whether the stop channel is closed, how many
times close(d.stopChan) ran, whether d.writer is non-nil, and how many
times d.writer.Close() was invoked. -/
structure CloseSt where
  stopClosed : Bool
  stopCloseCount : Nat
  writerPresent : Bool
  writerCloseCount : Nat
deriving DecidableEq, Repr

/-- Close (main.go:357-368): the select with default only closes the stop
channel when it is not already closed; then d.writer.Close() is invoked
unconditionally whenever the writer is non-nil. -/
def closeF (st : CloseSt) : CloseSt :=
  let st1 :=
    if st.stopClosed then st
    else { st with stopClosed := true, stopCloseCount := st.stopCloseCount + 1 }
  if st1.writerPresent then { st1 with writerCloseCount := st1.writerCloseCount + 1 }
  else st1

/-! Generic well-formed manifest bodies built from announcement/reference
pairs, used to state the parsing claims. -/

/-- A concrete segment-announcement line (any line starting with the
marker behaves identically in the scanner). -/
def extinfLine : Str := "#EXTINF:1,".data

/-- A well-formed segment reference line: already trimmed, non-empty, not a
comment/marker line, not containing the end-of-list marker, and free of
newlines (so it is one manifest line). -/
abbrev WfRef (r : Str) : Prop :=
  trimSpace r = r ∧ r ≠ [] ∧ hasPrefixL r hashMark = false ∧
    containsL r endlistMarker = false ∧ '\n' ∉ r

/-- The lines of a manifest consisting of announcement/reference pairs. -/
def pairLines : List Str → List Str
  | [] => []
  | r :: rs => extinfLine :: r :: pairLines rs

/-- Join lines with newline separators (inverse of splitLines on
newline-free lines). -/
def joinLines : List Str → Str
  | [] => []
  | [l] => l
  | l :: l2 :: ls => l ++ '\n' :: joinLines (l2 :: ls)

/-- A manifest body consisting of N announcement/reference pairs and
nothing else (no end-of-list marker). -/
def mkBody (refs : List Str) : Str := joinLines (pairLines refs)

/-! Concrete fixtures for witnesses and counterexamples. -/

/-- A live-mode playlist URL as produced by the stream resolver. -/
def urlLive : Str := "http://h/live/dynamic_playlist.m3u8?type=live".data

/-- A manifest body with neither segments nor a nested playlist line. -/
def noSegBody : Str := "#EXTM3U".data

/-- A transient network error message. -/
def netMsg : Str := "connection timeout".data

/-- A bare segment reference. -/
def seg1 : Str := "seg1.aac".data

/-- Another bare segment reference. -/
def seg2 : Str := "seg2.aac".data

/-- An absolute-URL segment reference. -/
def absRef1 : Str := "http://h/p/seg1.aac".data

/-- An absolute-URL segment reference in second position. -/
def absRef2 : Str := "http://h/p/seg2.aac".data

/-- A downloader state fresh from NewHLSDownloader (base URL not yet set,
not completed, empty ledger). -/
def stPlain : DlSt := ⟨[], false, []⟩

/-- An empty manifest body: zero announcement/reference pairs. -/
def emptyBody : Str := []

/-- A fetch oracle always answering with a two-pair manifest. -/
def twoPairFetch : Str → Except Str Str := fun _ => Except.ok (mkBody [seg1, seg2])

/-- A line carrying both the announcement marker and the end marker. -/
def c4Body : Str := "#EXTINF:1,#EXT-X-ENDLIST\nseg1.aac".data

/-- A body whose end-of-list marker stands on its own line. -/
def c4wBody : Str := "#EXTINF:1,\nseg1.aac\n#EXT-X-ENDLIST".data

/-- The bare end-of-list line. -/
def endlistLine : Str := "#EXT-X-ENDLIST".data

/-- A manifest body referencing only the master playlist. -/
def masterOnlyBody : Str := "#EXTM3U\nmaster_playlist.m3u8".data

/-- A segment body reachable behind the master playlist (never fetched by
the code, see claim C2). -/
def c2Fetch : Str → Except Str Str := fun u =>
  if u = urlLive then Except.ok masterOnlyBody else Except.ok (mkBody [seg1])

/-- A manifest body referencing only a non-master nested playlist. -/
def nestedOnlyBody : Str := "#EXTM3U\nchunk_0.m3u8".data

/-- The nested playlist line of nestedOnlyBody. -/
def nestedLine : Str := "chunk_0.m3u8".data

/-- A fetch oracle answering the nested-only body everywhere. -/
def nestedFetch : Str → Except Str Str := fun _ => Except.ok nestedOnlyBody

/-- A state with an already-set base URL and untouched defaults. -/
def stBase : DlSt := ⟨"http://h/live".data, false, []⟩

/-- A state with a recognizable previous base URL, for the frame claim. -/
def stOrig : DlSt := ⟨"orig".data, false, []⟩

/-- A body whose first (and only) chunk is an absolute URL and which ends
the stream. -/
def c9Body : Str := "#EXTINF:1,\nhttp://h/p/a.aac\n#EXT-X-ENDLIST".data

/-- A playlist URL with no slash at all. -/
def noSlashUrl : Str := "playlist.m3u8".data

/-- A two-pair manifest whose second reference is an absolute URL while the
first is bare. -/
def c8Body : Str := mkBody [seg1, absRef2]

/-- A segment directory base URL. -/
def baseHP : Str := "http://h/p".data

end TSD

/-! Theorems. -/

namespace TSD

theorem extinf_implies_hash {r : Str} (h : hasPrefixL r extinfMarker = true) :
    hasPrefixL r hashMark = true := by
  have he : extinfMarker = '#' :: "EXTINF:".data := rfl
  have hh : hashMark = ['#'] := rfl
  rw [he] at h
  rw [hh]
  cases r with
  | nil => simp [hasPrefixL, List.isPrefixOf] at h
  | cons a t =>
    simp only [hasPrefixL, List.isPrefixOf, Bool.and_eq_true] at h ⊢
    exact ⟨h.1, trivial⟩

theorem scanLine_extinf (st : ScanSt) : scanLine st extinfLine = { st with isChunk := true } := rfl

theorem scanLine_ref (acc : List Str) (comp : Bool) (r : Str) (hwf : WfRef r) :
    scanLine ⟨true, acc, comp⟩ r = ⟨false, acc ++ [r], comp⟩ := by
  obtain ⟨htrim, hne, hhash, hend, -⟩ := hwf
  have hext : hasPrefixL r extinfMarker = false := by
    cases hx : hasPrefixL r extinfMarker
    · rfl
    · rw [extinf_implies_hash hx] at hhash; cases hhash
  simp only [scanLine, htrim]
  rw [if_neg hne]
  simp [hext, hhash, hend]

theorem scan_pairLines (refs : List Str) (hwf : ∀ r ∈ refs, WfRef r) :
    ∀ (acc : List Str) (comp : Bool),
      (pairLines refs).foldl scanLine ⟨false, acc, comp⟩ = ⟨false, acc ++ refs, comp⟩ := by
  induction refs with
  | nil => intro acc comp; simp [pairLines]
  | cons r rs ih =>
    intro acc comp
    simp only [pairLines, List.foldl_cons]
    rw [scanLine_extinf, scanLine_ref acc comp r (hwf r (by simp))]
    rw [ih (fun x hx => hwf x (List.mem_cons_of_mem _ hx)) (acc ++ [r]) comp]
    simp

theorem splitLines_of_no_newline {l : Str} (h : '\n' ∉ l) : splitLines l = [l] := by
  induction l with
  | nil => rfl
  | cons c t ih =>
    simp only [List.mem_cons, not_or] at h
    simp only [splitLines, ih h.2]
    rw [if_neg (fun he => h.1 he.symm)]

theorem splitLines_append_newline {l : Str} (r : Str) (h : '\n' ∉ l) :
    splitLines (l ++ '\n' :: r) = l :: splitLines r := by
  induction l with
  | nil => rfl
  | cons c t ih =>
    simp only [List.mem_cons, not_or] at h
    have heq : (c :: t) ++ '\n' :: r = c :: (t ++ '\n' :: r) := rfl
    rw [heq]
    simp only [splitLines]
    rw [if_neg (fun he => h.1 he.symm), ih h.2]

theorem splitLines_joinLines {ls : List Str} (hne : ls ≠ [])
    (h : ∀ l ∈ ls, '\n' ∉ l) : splitLines (joinLines ls) = ls := by
  induction ls with
  | nil => cases hne rfl
  | cons l ls2 ih =>
    cases ls2 with
    | nil => exact splitLines_of_no_newline (h l (by simp))
    | cons l2 ls3 =>
      simp only [joinLines]
      rw [splitLines_append_newline _ (h l (by simp))]
      rw [ih (by simp) (fun x hx => h x (List.mem_cons_of_mem _ hx))]

theorem pairLines_ne_nil {refs : List Str} (h : refs ≠ []) : pairLines refs ≠ [] := by
  cases refs with
  | nil => cases h rfl
  | cons r rs => simp [pairLines]

theorem pairLines_no_newline :
    ∀ (refs : List Str), (∀ r ∈ refs, WfRef r) → ∀ l ∈ pairLines refs, '\n' ∉ l := by
  intro refs
  induction refs with
  | nil => intro _ l hl; cases hl
  | cons a rs ih =>
    intro hwf l hl
    simp only [pairLines, List.mem_cons] at hl
    rcases hl with h1 | h2 | h3
    · rw [h1]; decide
    · rw [h2]; exact (hwf a (by simp)).2.2.2.2
    · exact ih (fun x hx => hwf x (List.mem_cons_of_mem _ hx)) l h3

theorem scanContent_mkBody {refs : List Str} (hne : refs ≠ [])
    (hwf : ∀ r ∈ refs, WfRef r) (c0 : Bool) :
    scanContent (mkBody refs) c0 = ⟨false, refs, c0⟩ := by
  unfold scanContent mkBody
  rw [splitLines_joinLines (pairLines_ne_nil hne) (pairLines_no_newline refs hwf)]
  rw [scan_pairLines refs hwf [] c0]
  simp

theorem rewriteChunks_spec (base : Str) (chunks : List Str) :
    ((rewriteChunks base chunks).2 = chunks ∨
      (rewriteChunks base chunks).2 = chunks.map basenameL) ∧
    (rewriteChunks base chunks).2.length = chunks.length := by
  cases chunks with
  | nil => simp [rewriteChunks]
  | cons f rest =>
    simp only [rewriteChunks]
    split
    · split
      · simp
      · simp
    · simp

theorem rewriteChunks_http (base f : Str) (rest : List Str)
    (hh : hasPrefixL f httpMarker = true) (hs : lastIndexOfChar f '/' ≠ -1) :
    rewriteChunks base (f :: rest) =
      (f.take (lastIndexOfChar f '/').toNat, (f :: rest).map basenameL) := by
  simp [rewriteChunks, hh, hs]

theorem getPlaylistF_mkBody (fetch : Str → Except Str Str) (fuel : Nat) (st : DlSt) (url : Str)
    (refs : List Str) (hne : refs ≠ []) (hwf : ∀ r ∈ refs, WfRef r)
    (hfetch : fetch url = Except.ok (mkBody refs)) :
    getPlaylistF fetch (fuel + 1) st url =
      (Except.ok (rewriteChunks st.baseURL refs).2,
       { st with baseURL := (rewriteChunks st.baseURL refs).1 }) := by
  have hlen := (rewriteChunks_spec st.baseURL refs).2
  have hch : ¬ ((rewriteChunks st.baseURL refs).2 = []) := by
    intro h0
    rw [h0] at hlen
    exact hne (List.length_eq_zero.mp hlen.symm)
  simp only [getPlaylistF, hfetch]
  rw [scanContent_mkBody hne hwf]
  simp only []
  rw [if_neg hch]

theorem scanLine_completed_mono (st : ScanSt) (raw : Str) (h : st.completed = true) :
    (scanLine st raw).completed = true := by
  simp only [scanLine]
  split
  · exact h
  · split
    · exact h
    · split
      · rfl
      · split
        · exact h
        · exact h

theorem foldl_scanLine_completed_mono (lines : List Str) :
    ∀ (st : ScanSt), st.completed = true → (lines.foldl scanLine st).completed = true := by
  induction lines with
  | nil => intro st h; exact h
  | cons a t ih => intro st h; exact ih _ (scanLine_completed_mono st a h)

theorem scanLine_endlist (st : ScanSt) (raw : Str)
    (hpre : hasPrefixL (trimSpace raw) extinfMarker = false)
    (hend : containsL (trimSpace raw) endlistMarker = true) :
    (scanLine st raw).completed = true := by
  have hne : ¬ (trimSpace raw = []) := by
    intro h0
    rw [h0] at hend
    exact absurd hend (by decide)
  simp only [scanLine]
  rw [if_neg hne]
  simp [hpre, hend]

theorem foldl_scanLine_completed_of_mem (lines : List Str) (raw : Str)
    (hmem : raw ∈ lines)
    (hpre : hasPrefixL (trimSpace raw) extinfMarker = false)
    (hend : containsL (trimSpace raw) endlistMarker = true) :
    ∀ (st : ScanSt), (lines.foldl scanLine st).completed = true := by
  induction lines with
  | nil => cases hmem
  | cons a t ih =>
    intro st
    rcases List.mem_cons.mp hmem with h1 | h2
    · rw [List.foldl_cons]
      exact foldl_scanLine_completed_mono t _ (h1 ▸ scanLine_endlist st raw hpre hend)
    · rw [List.foldl_cons]
      exact ih h2 (scanLine st a)

theorem getPlaylistF_completed_mono (fetch : Str → Except Str Str) (fuel : Nat) :
    ∀ (st : DlSt) (url : Str), st.isCompleted = true →
      (getPlaylistF fetch fuel st url).2.isCompleted = true := by
  induction fuel with
  | zero => intro st url h; exact h
  | succ n ih =>
    intro st url h
    simp only [getPlaylistF]
    cases hf : fetch url with
    | error m => exact h
    | ok content =>
      have hsc : (scanContent content st.isCompleted).completed = true := by
        unfold scanContent
        exact foldl_scanLine_completed_mono _ _ (by simp [h])
      simp only []
      split
      · split
        · exact ih _ _ hsc
        · exact hsc
      · exact hsc

theorem processChunksF_spec (dlr : Str → DlRes) (stop : Bool) (base : Str)
    (chunks : List Str) : ∀ (seen : List Str) (c : Str), c ∈ seen →
      c ∉ (processChunksF dlr stop base seen chunks).2 ∧
      c ∈ (processChunksF dlr stop base seen chunks).1 := by
  induction chunks with
  | nil => intro seen c h; exact ⟨by simp [processChunksF], h⟩
  | cons a rest ih =>
    intro seen c h
    simp only [processChunksF]
    split
    · exact ⟨by simp, h⟩
    · split
      · exact ih seen c h
      · rename_i hstop hna
        have hac : ¬ (c = a) := fun he => hna (he ▸ h)
        cases dlr (chunkURLOf base a) with
        | closedErr =>
          refine ⟨?_, h⟩
          simp only [List.mem_singleton]
          exact hac
        | otherErr =>
          obtain ⟨h1, h2⟩ := ih seen c h
          refine ⟨?_, h2⟩
          simp only [List.mem_cons, not_or]
          exact ⟨hac, h1⟩
        | okDl =>
          obtain ⟨h1, h2⟩ := ih (seen ++ [a]) c (List.mem_append_left _ h)
          refine ⟨?_, h2⟩
          simp only [List.mem_cons, not_or]
          exact ⟨hac, h1⟩

theorem mem_of_mem_replaceFirstL {old new : Str} {a : Char} :
    ∀ {s : Str}, a ∈ replaceFirstL old new s → a ∈ new ∨ a ∈ s := by
  intro s
  induction s with
  | nil =>
    intro h
    simp only [replaceFirstL] at h
    split at h
    · exact Or.inl h
    · cases h
  | cons c t ih =>
    intro h
    simp only [replaceFirstL] at h
    split at h
    · rcases List.mem_append.mp h with h1 | h2
      · exact Or.inl h1
      · exact Or.inr (List.mem_of_mem_drop h2)
    · rcases List.mem_cons.mp h with h1 | h2
      · exact Or.inr (h1 ▸ List.mem_cons_self c t)
      · rcases ih h2 with h3 | h4
        · exact Or.inl h3
        · exact Or.inr (List.mem_cons_of_mem c h4)

theorem lastIndexOfChar_eq_neg1 {s : Str} {c : Char} (h : c ∉ s) :
    lastIndexOfChar s c = -1 := by
  induction s with
  | nil => rfl
  | cons a t ih =>
    simp only [List.mem_cons, not_or] at h
    simp only [lastIndexOfChar, ih h.2]
    rw [if_neg (by norm_num), if_neg (fun he => h.1 he.symm)]

theorem goSliceTo_neg1 (s : Str) : goSliceTo s (-1) = none := by
  norm_num [goSliceTo]

theorem switchToReplayF_no_slash {url : Str} (h : '/' ∉ url) :
    '/' ∉ switchToReplayF url := by
  have h1 : '/' ∉ replaceFirstL liveMarker replayMarker url := by
    intro hm
    rcases mem_of_mem_replaceFirstL hm with h2 | h3
    · exact absurd h2 (by decide)
    · exact h h3
  unfold switchToReplayF
  simp only []
  split
  · intro hm
    rcases mem_of_mem_replaceFirstL hm with h2 | h3
    · exact absurd h2 (by decide)
    · exact h1 h3
  · exact h1

/-! Claim theorems. -/

/-- Claim C1. The claim states that after replay mode has been attempted, a
further NoSegmentsFoundError is fatal, and that two consecutive
NoSegmentsFoundError results make the driver fail fatally on the second.
The code cannot do this: the driver (main.go:179) looks for the substring
matched in the first conjunct inside the error message, but the error
produced at main.go:310 (second conjunct) does not contain it, so the
replay branch never fires and every no-segments failure is retried like a
transient error.  The third conjunct runs the driver on two consecutive
no-segments manifests: it emits no mode switch, performs two counted
retries with their sleeps, and keeps polling — neither the claimed switch
on the first occurrence nor the claimed fatal failure on the second. -/
theorem C1_noseg_neither_switch_nor_fatal :
    containsL noSegMsg noSegCheckPattern = false ∧
    (getPlaylistF (fun _ => Except.ok noSegBody) 1 stBase urlLive).1 =
      Except.error GErr.noSegments ∧
    startF (fun _ => Except.ok noSegBody) (fun _ => DlRes.okDl) false 2 urlLive stPlain =
      (StartOutcome.fuelOut, [Ev.fetchEv, Ev.retrySleepEv, Ev.fetchEv, Ev.retrySleepEv]) := by
  exact ⟨by decide, rfl, by decide⟩

/-- Claim C2, counterexample. A manifest whose only playlist reference is
master_playlist.m3u8 is NOT recursively fetched: main.go:301 excludes every
line containing master_playlist, so the fetcher fails with the no-segments
error even though the oracle serves a valid segment manifest behind that
nested URL.  The second conjunct shows the nested scan finds nothing. -/
theorem C2_counterexample :
    (getPlaylistF c2Fetch 2 stBase urlLive).1 = Except.error GErr.noSegments ∧
    findNested (splitLines masterOnlyBody) = none := ⟨rfl, rfl⟩

/-- Claim C2, amended: for a manifest body with no collected segments whose
first nested-playlist line (a trimmed line ending in .m3u8 and not
containing master_playlist) is a relative reference, the fetcher recurses
on base-URL/line and returns that recursive result. -/
theorem C2_nested_redirect (fetch : Str → Except Str Str) (fuel : Nat) (st : DlSt)
    (url content line : Str)
    (hfetch : fetch url = Except.ok content)
    (hscan : (scanContent content st.isCompleted).chunks = [])
    (hfind : findNested (splitLines content) = some line)
    (hhttp : hasPrefixL line httpMarker = false) :
    getPlaylistF fetch (fuel + 1) st url =
      getPlaylistF fetch fuel
        { st with isCompleted := (scanContent content st.isCompleted).completed }
        (st.baseURL ++ '/' :: line) := by
  simp only [getPlaylistF, hfetch, hscan]
  simp only [rewriteChunks]
  rw [if_pos trivial, hfind]
  simp [hhttp]

/-- Claim C2, witness: a concrete no-segment manifest referencing
chunk_0.m3u8 makes the fetcher recurse on base/chunk_0.m3u8. -/
theorem C2_nested_redirect_witness :
    (findNested (splitLines nestedOnlyBody) = some nestedLine ∧
      hasPrefixL nestedLine httpMarker = false) ∧
    getPlaylistF nestedFetch 1 stBase urlLive =
      getPlaylistF nestedFetch 0
        { stBase with isCompleted := (scanContent nestedOnlyBody stBase.isCompleted).completed }
        (stBase.baseURL ++ '/' :: nestedLine) :=
  ⟨⟨by decide, by decide⟩,
    C2_nested_redirect nestedFetch 0 stBase urlLive nestedOnlyBody nestedLine rfl
      (by decide) (by decide) (by decide)⟩

/-- Claim C3, counterexample: the degenerate manifest body with zero
announcement/reference pairs (the empty body) does not yield zero
references with completed=false; it fails with the no-segments error. -/
theorem C3_counterexample :
    mkBody ([] : List Str) = emptyBody ∧
    (getPlaylistF (fun _ => Except.ok emptyBody) 1 stPlain urlLive).1 =
      Except.error GErr.noSegments := ⟨rfl, rfl⟩

/-- Claim C3, amended to N ≥ 1: for every manifest body consisting of N ≥ 1
announcement/reference pairs and no end-of-list marker, the fetcher
succeeds with exactly N references in document order (identically the
input references, or pointwise their basenames when the absolute-URL
rewrite fires) and the completion flag stays false. -/
theorem C3_pairs_parse (fetch : Str → Except Str Str) (fuel : Nat) (st : DlSt) (url : Str)
    (refs : List Str) (hne : refs ≠ []) (hwf : ∀ r ∈ refs, WfRef r)
    (hfetch : fetch url = Except.ok (mkBody refs)) (hc : st.isCompleted = false) :
    (getPlaylistF fetch (fuel + 1) st url).2.isCompleted = false ∧
    (getPlaylistF fetch (fuel + 1) st url).1 = Except.ok (rewriteChunks st.baseURL refs).2 ∧
    (rewriteChunks st.baseURL refs).2.length = refs.length ∧
    ((rewriteChunks st.baseURL refs).2 = refs ∨
      (rewriteChunks st.baseURL refs).2 = refs.map basenameL) := by
  rw [getPlaylistF_mkBody fetch fuel st url refs hne hwf hfetch]
  exact ⟨hc, rfl, (rewriteChunks_spec st.baseURL refs).2,
    (rewriteChunks_spec st.baseURL refs).1⟩

/-- Claim C3, witness at a concrete two-pair manifest. -/
theorem C3_pairs_parse_witness :
    (([seg1, seg2] : List Str) ≠ [] ∧ ∀ r ∈ ([seg1, seg2] : List Str), WfRef r) ∧
    ((getPlaylistF twoPairFetch 1 stPlain urlLive).2.isCompleted = false ∧
     (getPlaylistF twoPairFetch 1 stPlain urlLive).1 =
       Except.ok (rewriteChunks stPlain.baseURL [seg1, seg2]).2 ∧
     (rewriteChunks stPlain.baseURL [seg1, seg2]).2.length =
       ([seg1, seg2] : List Str).length ∧
     ((rewriteChunks stPlain.baseURL [seg1, seg2]).2 = [seg1, seg2] ∨
       (rewriteChunks stPlain.baseURL [seg1, seg2]).2 = [seg1, seg2].map basenameL)) :=
  ⟨⟨by decide, by decide⟩,
    C3_pairs_parse twoPairFetch 0 stPlain urlLive [seg1, seg2] (by decide) (by decide) rfl rfl⟩

/-- Claim C4, counterexample: a line that contains the end-of-list marker
but begins with the announcement marker is skipped by the continue of
main.go:271 before the end-marker check, so this manifest leaves the
completion flag false although one of its lines contains the marker. -/
theorem C4_counterexample :
    (splitLines c4Body).any (fun l => containsL l endlistMarker) = true ∧
    (getPlaylistF (fun _ => Except.ok c4Body) 1 stPlain urlLive).2.isCompleted = false := by
  exact ⟨by decide, by decide⟩

/-- Claim C4, amended: any manifest line that (after trimming) does not
begin with the announcement marker and contains the end-of-list marker
forces the fetch to leave the completion flag true, regardless of
position, of how many segments precede it, and of whether the fetch then
succeeds, recurses, or fails. -/
theorem C4_endlist_sets_completed (fetch : Str → Except Str Str) (fuel : Nat) (st : DlSt)
    (url content raw : Str)
    (hfetch : fetch url = Except.ok content)
    (hmem : raw ∈ splitLines content)
    (hpre : hasPrefixL (trimSpace raw) extinfMarker = false)
    (hend : containsL (trimSpace raw) endlistMarker = true) :
    (getPlaylistF fetch (fuel + 1) st url).2.isCompleted = true := by
  have hsc : (scanContent content st.isCompleted).completed = true := by
    unfold scanContent
    exact foldl_scanLine_completed_of_mem _ _ hmem hpre hend _
  simp only [getPlaylistF, hfetch]
  split
  · split
    · exact getPlaylistF_completed_mono fetch fuel _ _ hsc
    · exact hsc
  · exact hsc

/-- Claim C4, witness at a concrete manifest ending with the marker. -/
theorem C4_endlist_witness :
    (endlistLine ∈ splitLines c4wBody ∧
      hasPrefixL (trimSpace endlistLine) extinfMarker = false ∧
      containsL (trimSpace endlistLine) endlistMarker = true) ∧
    (getPlaylistF (fun _ => Except.ok c4wBody) 1 stPlain urlLive).2.isCompleted = true :=
  ⟨⟨by decide, by decide, by decide⟩,
    C4_endlist_sets_completed _ 0 stPlain urlLive c4wBody endlistLine rfl
      (by decide) (by decide) (by decide)⟩

/-- Claim C5: a reference already in the dedup ledger is never passed to
the segment acquirer by any number of later polls, and it stays in the
ledger (the ledger is never cleared). -/
theorem C5_ledger_never_reacquired (dlr : Str → DlRes) (stop : Bool) (base : Str)
    (ms : List (List Str)) : ∀ (seen : List Str) (c : Str), c ∈ seen →
      c ∉ (processManyF dlr stop base seen ms).2 ∧
      c ∈ (processManyF dlr stop base seen ms).1 := by
  induction ms with
  | nil => intro seen c h; exact ⟨by simp [processManyF], h⟩
  | cons m ms2 ih =>
    intro seen c h
    simp only [processManyF]
    obtain ⟨h1, h2⟩ := processChunksF_spec dlr stop base m seen c h
    obtain ⟨h3, h4⟩ := ih _ c h2
    refine ⟨?_, h4⟩
    simp only [List.mem_append, not_or]
    exact ⟨h1, h3⟩

/-- Claim C5, witness: seg1, already in the ledger, is not re-acquired
although it reappears in both later manifests. -/
theorem C5_ledger_witness :
    seg1 ∈ ([seg1] : List Str) ∧
    (seg1 ∉ (processManyF (fun _ => DlRes.okDl) false baseHP [seg1] [[seg1, seg2], [seg1]]).2 ∧
     seg1 ∈ (processManyF (fun _ => DlRes.okDl) false baseHP [seg1] [[seg1, seg2], [seg1]]).1) :=
  ⟨by decide,
    C5_ledger_never_reacquired (fun _ => DlRes.okDl) false baseHP [[seg1, seg2], [seg1]]
      [seg1] seg1 (by decide)⟩

/-- Claim C6: with every manifest fetch failing transiently and the retry
bound MAX_RETRIES = 10, the driver returns the wrapped fatal error after
the 11th attempt; the trace shows a retry sleep after each of the first
ten failed fetches and none after the eleventh. -/
theorem C6_retry_exhaustion :
    startF (fun _ => Except.error netMsg) (fun _ => DlRes.okDl) false 11 urlLive stPlain =
      (StartOutcome.fatalOut (wrapFatal netMsg),
       (List.replicate 10 [Ev.fetchEv, Ev.retrySleepEv]).flatten ++ [Ev.fetchEv]) := by
  decide

/-- Claim C7: calling Close twice on a downloader with a live writer.  The
stop channel is closed exactly once (the select guard of main.go:358-363
makes that part idempotent, so no panic), but d.writer.Close() runs
unconditionally on every Close call (main.go:365-367), so the sink's Close
is invoked twice — the code does not close the sink exactly once. -/
theorem C7_double_close_evidence :
    closeF (closeF ⟨false, 0, true, 0⟩) = ⟨true, 1, true, 2⟩ := rfl

/-- Claim C8, counterexample: the second collected reference is an absolute
URL, but because the rewrite of main.go:284-295 keys only on the FIRST
chunk (here a bare name), no base-URL derivation and no rewriting happen:
the absolute URL is returned untouched and the base URL keeps its previous
value. -/
theorem C8_counterexample :
    hasPrefixL absRef2 httpMarker = true ∧
    (getPlaylistF (fun _ => Except.ok c8Body) 1 stOrig urlLive).1 =
      Except.ok [seg1, absRef2] ∧
    (getPlaylistF (fun _ => Except.ok c8Body) 1 stOrig urlLive).2.baseURL = stOrig.baseURL := by
  exact ⟨by decide, rfl, rfl⟩

/-- Claim C8, amended: when the FIRST collected reference is an absolute
URL (http prefix) containing a slash, the fetcher derives the base URL
from that reference's directory portion and rewrites all collected
references to their bare trailing components. -/
theorem C8_first_chunk_http_rewrite (fetch : Str → Except Str Str) (fuel : Nat) (st : DlSt)
    (url f : Str) (rest : List Str)
    (hwf : ∀ r ∈ f :: rest, WfRef r)
    (hh : hasPrefixL f httpMarker = true)
    (hs : lastIndexOfChar f '/' ≠ -1)
    (hfetch : fetch url = Except.ok (mkBody (f :: rest))) :
    getPlaylistF fetch (fuel + 1) st url =
      (Except.ok ((f :: rest).map basenameL),
       { st with baseURL := f.take (lastIndexOfChar f '/').toNat }) := by
  rw [getPlaylistF_mkBody fetch fuel st url (f :: rest) (by simp) hwf hfetch,
    rewriteChunks_http st.baseURL f rest hh hs]

/-- Claim C8, witness: a manifest whose first reference is absolute gets
both references rewritten to basenames and the base URL set to the first
reference's directory. -/
theorem C8_first_chunk_http_witness :
    ((∀ r ∈ ([absRef1, seg2] : List Str), WfRef r) ∧
      hasPrefixL absRef1 httpMarker = true ∧ lastIndexOfChar absRef1 '/' ≠ -1) ∧
    getPlaylistF (fun _ => Except.ok (mkBody [absRef1, seg2])) 1 stPlain urlLive =
      (Except.ok ([absRef1, seg2].map basenameL),
       { stPlain with baseURL := absRef1.take (lastIndexOfChar absRef1 '/').toNat }) :=
  ⟨⟨by decide, by decide, by decide⟩,
    C8_first_chunk_http_rewrite (fun _ => Except.ok (mkBody [absRef1, seg2])) 0 stPlain
      urlLive absRef1 [seg2] (by decide) (by decide) (by decide) rfl⟩

/-- Claim C9, counterexample: a single fetch DOES mutate the caller's
session in place — after fetching a manifest whose first chunk is absolute
and which carries the end marker, the session's base URL and completion
flag both differ from their pre-fetch values (they are communicated by
mutation, not by return value). -/
theorem C9_counterexample :
    (getPlaylistF (fun _ => Except.ok c9Body) 1 stOrig urlLive).2.baseURL ≠ stOrig.baseURL ∧
    (getPlaylistF (fun _ => Except.ok c9Body) 1 stOrig urlLive).2.isCompleted ≠
      stOrig.isCompleted := by
  exact ⟨by decide, by decide⟩

/-- Claim C9, amended: the fetch updates base URL and completion flag by
mutating the session, but it never touches the dedup ledger: for every
oracle, fuel, state and URL the seenChunks field is unchanged. -/
theorem C9_fetch_preserves_ledger (fetch : Str → Except Str Str) (fuel : Nat) :
    ∀ (st : DlSt) (url : Str),
      (getPlaylistF fetch fuel st url).2.seenChunks = st.seenChunks := by
  induction fuel with
  | zero => intro st url; rfl
  | succ n ih =>
    intro st url
    simp only [getPlaylistF]
    cases hf : fetch url with
    | error m => rfl
    | ok content =>
      simp only []
      split
      · split
        · exact ih _ _
        · rfl
      · rfl

/-- Claim C10: a playlist URL without any slash makes the base-URL slice of
Start (main.go:164) and of switchToReplay (main.go:326) take s[:-1], an
out-of-range slice, modelled as none — the Go code panics instead of
returning an error, so Start is only safe when the URL contains a '/'. -/
theorem C10_no_slash_panics (url : Str) (h : '/' ∉ url) :
    startBaseF url = none ∧ switchBaseF url = none := by
  refine ⟨?_, ?_⟩
  · unfold startBaseF
    rw [lastIndexOfChar_eq_neg1 h]
    exact goSliceTo_neg1 url
  · unfold switchBaseF
    rw [lastIndexOfChar_eq_neg1 (switchToReplayF_no_slash h)]
    exact goSliceTo_neg1 _

/-- Claim C10, witness at a concrete slash-free URL. -/
theorem C10_no_slash_witness :
    ('/' ∉ noSlashUrl) ∧ (startBaseF noSlashUrl = none ∧ switchBaseF noSlashUrl = none) :=
  ⟨by decide, C10_no_slash_panics noSlashUrl (by decide)⟩

end TSD
